import Mathlib

/-!
Verification of the Qrack core sources: the SSE2 complex-arithmetic struct
(ComplexSimd) and the CPU quantum-register engine interface (QEngineCPU).

The SSE2 double lanes are embedded as exact rationals: a value of type
__m128d becomes a pair of rationals, lane 0 first.  Each intrinsic used by
the source is modelled lane-wise, and each C++ operator is translated
body-by-body.  Compound-assignment operators, which mutate `this`, are
translated in state-passing style: they return the new value of `this`
together with the value the C++ operator returns.
-/

namespace Qrack

/-- Model of `__m128d`: two double lanes, lane 0 first. -/
abbrev M128d := ℚ × ℚ

/-- Model of `_mm_set_pd(e1, e0)`: lane 1 receives the first argument,
lane 0 the second. -/
def mm_set_pd (e1 e0 : ℚ) : M128d := (e0, e1)

/-- Model of `_mm_set1_pd(a)`: both lanes receive `a`. -/
def mm_set1_pd (a : ℚ) : M128d := (a, a)

/-- Lane-wise addition, `_mm_add_pd`. -/
def mm_add_pd (x y : M128d) : M128d := (x.1 + y.1, x.2 + y.2)

/-- Lane-wise subtraction, `_mm_sub_pd`. -/
def mm_sub_pd (x y : M128d) : M128d := (x.1 - y.1, x.2 - y.2)

/-- Lane-wise multiplication, `_mm_mul_pd`. -/
def mm_mul_pd (x y : M128d) : M128d := (x.1 * y.1, x.2 * y.2)

/-- Lane-wise division, `_mm_div_pd`. -/
def mm_div_pd (x y : M128d) : M128d := (x.1 / y.1, x.2 / y.2)

/-- Model of `_mm_move_sd(a, b)`: lane 0 from the second operand, lane 1
from the first. -/
def mm_move_sd (a b : M128d) : M128d := (b.1, a.2)

/-- Model of `_mm_bslli_si128(x, 8)` viewed through the double lanes: the
128-bit value shifts up by 64 bits, so lane 1 receives the old lane 0 and
lane 0 receives zero bits, which read back as the double 0. -/
def mm_bslli8 (x : M128d) : M128d := (0, x.1)

/-- Model of `_mm_bsrli_si128(x, 8)` viewed through the double lanes: lane 0
receives the old lane 1 and lane 1 receives zero bits. -/
def mm_bsrli8 (x : M128d) : M128d := (x.2, 0)

/-- The `ComplexSimd` struct: a single field `_val` holding the two lanes. -/
structure ComplexSimd where
  _val : M128d
deriving DecidableEq, Repr

/-- The `ComplexSimd(double real, double imag)` constructor:
`_val = _mm_set_pd(imag, real)`, so lane 0 is the real part and lane 1 the
imaginary part. -/
def ComplexSimd.ofReIm (re im : ℚ) : ComplexSimd := ⟨mm_set_pd im re⟩

/-- The free function `real`: lane 0 of `_val`. -/
def real (c : ComplexSimd) : ℚ := c._val.1

/-- The free function `imag`: lane 1 of `_val`. -/
def imag (c : ComplexSimd) : ℚ := c._val.2

/-- The free function `normSqrd`: multiply `_val` by itself lane-wise and
add the two lanes. -/
def normSqrd (c : ComplexSimd) : ℚ :=
  let temp := mm_mul_pd c._val c._val
  temp.1 + temp.2

/-- The const member `operator+`: lane-wise add of the two `_val` fields. -/
def add (z w : ComplexSimd) : ComplexSimd := ⟨mm_add_pd z._val w._val⟩

/-- The const member `operator-`: lane-wise subtract. -/
def sub (z w : ComplexSimd) : ComplexSimd := ⟨mm_sub_pd z._val w._val⟩

/-- The const member `operator*` on two `ComplexSimd`: two lane-wise
multiplies and a lane shuffle of `_val` (a 64-bit byte-shift pair merged by
`_mm_move_sd`), then the result is rebuilt through the (real, imag)
constructor. -/
def mul (z w : ComplexSimd) : ComplexSimd :=
  let realComps := mm_mul_pd w._val z._val
  let imagComps := mm_mul_pd w._val (mm_move_sd (mm_bslli8 z._val) (mm_bsrli8 z._val))
  ComplexSimd.ofReIm (realComps.1 - realComps.2) (imagComps.1 + imagComps.2)

/-- The member `operator*=`: same two multiplies and shuffle as `operator*`,
but the new `_val` is written with `_mm_set_pd(realPart, imagPart)` — note
the argument order — and a copy of the new `_val` is returned.  Returns
(new value of this, returned value). -/
def mulAssign (z w : ComplexSimd) : ComplexSimd × ComplexSimd :=
  let realComps := mm_mul_pd w._val z._val
  let imagComps := mm_mul_pd w._val (mm_move_sd (mm_bslli8 z._val) (mm_bsrli8 z._val))
  let v := mm_set_pd (realComps.1 - realComps.2) (imagComps.1 + imagComps.2)
  (⟨v⟩, ⟨v⟩)

/-- The member `operator+=`: `_val` becomes the lane-wise sum and a copy of
it is returned.  Returns (new value of this, returned value). -/
def addAssign (z w : ComplexSimd) : ComplexSimd × ComplexSimd :=
  let v := mm_add_pd z._val w._val
  (⟨v⟩, ⟨v⟩)

/-- The member `operator-=`: `_val` becomes the lane-wise difference and a
copy of it is returned. -/
def subAssign (z w : ComplexSimd) : ComplexSimd × ComplexSimd :=
  let v := mm_sub_pd z._val w._val
  (⟨v⟩, ⟨v⟩)

/-- The const member `operator*(double)`: multiply both lanes by the
scalar. -/
def mulScalar (z : ComplexSimd) (rhs : ℚ) : ComplexSimd :=
  ⟨mm_mul_pd z._val (mm_set1_pd rhs)⟩

/-- The free function `operator*(double, ComplexSimd)`: multiply both lanes
by the scalar, scalar on the left. -/
def scalarMul (lhs : ℚ) (z : ComplexSimd) : ComplexSimd :=
  ⟨mm_mul_pd (mm_set1_pd lhs) z._val⟩

/-- The const member `operator/(double)`: divide both lanes by the
scalar. -/
def divScalar (z : ComplexSimd) (rhs : ℚ) : ComplexSimd :=
  ⟨mm_div_pd z._val (mm_set1_pd rhs)⟩

/-- The member `operator/=(double)`: `_val` becomes the lane-wise quotient
and a copy of it is returned. -/
def divAssign (z : ComplexSimd) (rhs : ℚ) : ComplexSimd × ComplexSimd :=
  let v := mm_div_pd z._val (mm_set1_pd rhs)
  (⟨v⟩, ⟨v⟩)

/-!
Frame-tracking translations of the const operations.  Each const member or
const-reference free function is translated once more in full state-passing
style: the result together with the after-call values of every operand.
The bodies contain no assignment to any `_val`, so the operand components
are those the C++ body leaves behind — the inputs themselves.
-/

/-- State-passing form of `operator+`: result, then this and other after
the call. -/
def addFull (z w : ComplexSimd) : ComplexSimd × ComplexSimd × ComplexSimd :=
  (add z w, z, w)

/-- State-passing form of `operator-`. -/
def subFull (z w : ComplexSimd) : ComplexSimd × ComplexSimd × ComplexSimd :=
  (sub z w, z, w)

/-- State-passing form of `operator*`. -/
def mulFull (z w : ComplexSimd) : ComplexSimd × ComplexSimd × ComplexSimd :=
  (mul z w, z, w)

/-- State-passing form of `operator*(double)`. -/
def mulScalarFull (z : ComplexSimd) (s : ℚ) : ComplexSimd × ComplexSimd :=
  (mulScalar z s, z)

/-- State-passing form of the free `operator*(double, ComplexSimd)`. -/
def scalarMulFull (s : ℚ) (z : ComplexSimd) : ComplexSimd × ComplexSimd :=
  (scalarMul s z, z)

/-- State-passing form of `operator/(double)`. -/
def divScalarFull (z : ComplexSimd) (s : ℚ) : ComplexSimd × ComplexSimd :=
  (divScalar z s, z)

/-- State-passing form of `real`. -/
def realFull (z : ComplexSimd) : ℚ × ComplexSimd := (real z, z)

/-- State-passing form of `imag`. -/
def imagFull (z : ComplexSimd) : ℚ × ComplexSimd := (imag z, z)

/-- State-passing form of `normSqrd`. -/
def normSqrdFull (z : ComplexSimd) : ℚ × ComplexSimd := (normSqrd z, z)

/-!
The QEngineCPU register.  The header `qengine_cpu.hpp` declares the engine
and defines `GetNorm` and `SetPermutation` inline; the other member bodies
live in an implementation file that is not part of src, so they are
modelled from the spec where a claim needs them, as marked on each
definition.  Amplitudes are the `ComplexSimd` values above; the state
vector is the list of amplitudes indexed by basis index.
-/

/-- Validation-error kinds of spec section 7 that the claims exercise. -/
inductive EngineError where
  | OutOfRange
  | Overlap
  | SizeMismatch
deriving DecidableEq, Repr

/-- The QEngineCPU state: qubit count, amplitude buffer (stateVec), cached
running norm, and the normalization flag. -/
structure QEngineCPU where
  qubitCount : Nat
  stateVec : List ComplexSimd
  runningNorm : ℚ
  doNormalize : Bool
deriving DecidableEq, Repr

/-- The zero amplitude, used as the out-of-range default of list reads. -/
def zeroAmp : ComplexSimd := ComplexSimd.ofReIm 0 0

/-- Modelled from the spec: the body of UpdateRunningNorm is absent from
src (qengine_cpu.hpp line 211 only declares it).  Per spec section 4.6 it
recomputes the exact sum of squared magnitudes over the full buffer and
stores it. -/
def UpdateRunningNorm (s : QEngineCPU) : QEngineCPU :=
  { s with runningNorm := (s.stateVec.map normSqrd).sum }

/-- The inline GetNorm of qengine_cpu.hpp: when update is true it first
calls UpdateRunningNorm, then returns runningNorm.  Translated in
state-passing style: (returned norm, register after the call). -/
def GetNorm (update : Bool) (s : QEngineCPU) : ℚ × QEngineCPU :=
  if update then
    let s' := UpdateRunningNorm s
    (s'.runningNorm, s')
  else
    (s.runningNorm, s)

/-- An ephemeral 2x2 gate matrix parameter, spec section 4.5. -/
structure GateMatrix where
  u00 : ComplexSimd
  u01 : ComplexSimd
  u10 : ComplexSimd
  u11 : ComplexSimd
deriving DecidableEq, Repr

/-- Modelled from the spec: the gate-kernel bodies are absent from src.
Per spec section 4.5, a single-qubit unitary replaces each amplitude pair
(amp at target bit 0, amp at target bit 1) by its image under the 2x2
matrix. -/
def apply2x2Permute (m : GateMatrix) (target : Nat) (vec : List ComplexSimd) :
    List ComplexSimd :=
  (List.range vec.length).map fun j =>
    if j.testBit target then
      add (mul m.u10 (vec.getD (j ^^^ 2 ^ target) zeroAmp))
        (mul m.u11 (vec.getD j zeroAmp))
    else
      add (mul m.u00 (vec.getD j zeroAmp))
        (mul m.u01 (vec.getD (j ^^^ 2 ^ target) zeroAmp))

/-- Modelled from the spec: per section 4.5, CNOT flips the target bit of
every basis index whose control bit is 1, permuting the amplitudes and
leaving indices with control 0 untouched. -/
def cnotPermute (control target : Nat) (vec : List ComplexSimd) :
    List ComplexSimd :=
  (List.range vec.length).map fun j =>
    vec.getD (if j.testBit control then j ^^^ 2 ^ target else j) zeroAmp

/-- Modelled from the spec: per section 4.5, CCNOT flips the target bit of
every basis index whose two control bits are both 1. -/
def ccnotPermute (control1 control2 target : Nat) (vec : List ComplexSimd) :
    List ComplexSimd :=
  (List.range vec.length).map fun j =>
    vec.getD (if j.testBit control1 && j.testBit control2 then j ^^^ 2 ^ target else j)
      zeroAmp

/-- Modelled from the spec: ApplySingleBit is declared at qengine_cpu.hpp
line 67; per spec sections 4.4 and 7, a target index at or beyond
qubitCount is rejected as OutOfRange before any amplitude mutation.  On
success the kernel is applied and, when doCalcNorm is set, the running norm
is refreshed from the written amplitudes. -/
def ApplySingleBit (mtrx : GateMatrix) (doCalcNorm : Bool) (qubitIndex : Nat)
    (s : QEngineCPU) : QEngineCPU × Option EngineError :=
  if s.qubitCount ≤ qubitIndex then
    (s, some EngineError.OutOfRange)
  else
    let s' := { s with stateVec := apply2x2Permute mtrx qubitIndex s.stateVec }
    (if doCalcNorm then { s' with runningNorm := (s'.stateVec.map normSqrd).sum }
      else s', none)

/-- Modelled from the spec: CNOT is declared at qengine_cpu.hpp line 70;
per spec sections 4.4 and 7, an index at or beyond qubitCount is
OutOfRange and a target equal to the control is Overlap, both rejected
before any amplitude mutation. -/
def CNOT (control target : Nat) (s : QEngineCPU) :
    QEngineCPU × Option EngineError :=
  if s.qubitCount ≤ control ∨ s.qubitCount ≤ target then
    (s, some EngineError.OutOfRange)
  else if control = target then
    (s, some EngineError.Overlap)
  else
    ({ s with stateVec := cnotPermute control target s.stateVec }, none)

/-- Modelled from the spec: CCNOT is declared at qengine_cpu.hpp line 68;
same validation as CNOT with two controls, any pair of equal role-distinct
positions being an Overlap. -/
def CCNOT (control1 control2 target : Nat) (s : QEngineCPU) :
    QEngineCPU × Option EngineError :=
  if s.qubitCount ≤ control1 ∨ s.qubitCount ≤ control2 ∨ s.qubitCount ≤ target then
    (s, some EngineError.OutOfRange)
  else if control1 = control2 ∨ control1 = target ∨ control2 = target then
    (s, some EngineError.Overlap)
  else
    ({ s with stateVec := ccnotPermute control1 control2 target s.stateVec }, none)

/-- Modelled from the spec: SetQuantumState is declared at qengine_cpu.hpp
line 51; per spec sections 4.2 and 7, an imported vector whose length
differs from 2^qubitCount is rejected as SizeMismatch and the register is
left unchanged; otherwise the buffer is overwritten. -/
def SetQuantumState (inputState : List ComplexSimd) (s : QEngineCPU) :
    QEngineCPU × Option EngineError :=
  if inputState.length ≠ 2 ^ s.qubitCount then
    (s, some EngineError.SizeMismatch)
  else
    ({ s with stateVec := inputState }, none)

/-- Bit field read: the value of the length-len field of basis index i that
starts at bit position start. -/
def getField (start len i : Nat) : Nat := i / 2 ^ start % 2 ^ len

/-- Bit field write: basis index i with its length-len field at bit
position start replaced by f, all other bits kept. -/
def setField (start len i f : Nat) : Nat :=
  i % 2 ^ start + f * 2 ^ start + i / 2 ^ (start + len) * 2 ^ (start + len)

/-- The basis-index permutation underlying INC: add shiftAmt to the field
modulo 2^len. -/
def shiftField (start len shiftAmt i : Nat) : Nat :=
  setField start len i ((getField start len i + shiftAmt) % 2 ^ len)

/-- Modelled from the spec: the body of INC is absent from src
(qengine_cpu.hpp line 135 only declares it).  Per spec section 4.8, INC
permutes basis indices, moving the amplitude at index i to the index whose
field at [start, start+len) reads (field + toAdd) mod 2^len; written as a
gather by the inverse field shift (2^len - toAdd mod 2^len) mod 2^len.
This is the amplitude update itself; the public call's validation is
modelled separately in INCChecked below. -/
def INC (toAdd start len : Nat) (s : QEngineCPU) : QEngineCPU :=
  { s with
    stateVec := (List.range s.stateVec.length).map fun j =>
      s.stateVec.getD (shiftField start len ((2 ^ len - toAdd % 2 ^ len) % 2 ^ len) j)
        zeroAmp }

/-- Modelled from the spec: the public INC call with its validation.  Per
spec sections 4.4 and 7 every special bit position is checked before any
amplitude mutation: a target field reaching past the last qubit is
OutOfRange, and only a valid call applies the INC permutation above.
Named INCChecked because INC above already names the update kernel. -/
def INCChecked (toAdd start len : Nat) (s : QEngineCPU) :
    QEngineCPU × Option EngineError :=
  if s.qubitCount < start + len then
    (s, some EngineError.OutOfRange)
  else
    (INC toAdd start len s, none)

/-- Modelled from the spec: the amplitude update of INCC, whose body is
absent from src (qengine_cpu.hpp line 136 only declares it).  Per spec
section 4.8 the carry-flagged add updates the field by toAdd modulo 2^len
and sets the carry qubit when the addition wraps; modelled as the
permutation adding toAdd to the (len+1)-bit value formed by the field with
the carry qubit as its top bit, written as a gather by the inverse
shift. -/
def inccPermute (toAdd start len carryIndex : Nat) (vec : List ComplexSimd) :
    List ComplexSimd :=
  (List.range vec.length).map fun j =>
    let v := (getField start len j + 2 ^ len * getField carryIndex 1 j +
      (2 ^ (len + 1) - toAdd % 2 ^ (len + 1)) % 2 ^ (len + 1)) % 2 ^ (len + 1)
    vec.getD
      (setField carryIndex 1 (setField start len j (v % 2 ^ len)) (v / 2 ^ len))
      zeroAmp

/-- Modelled from the spec: the public INCC call with its validation, per
spec sections 4.4, 4.8 and 7: the target field and the carry index must be
in range (OutOfRange) and the carry qubit must not lie inside the target
field (Overlap), both checked before any amplitude mutation. -/
def INCC (toAdd start len carryIndex : Nat) (s : QEngineCPU) :
    QEngineCPU × Option EngineError :=
  if s.qubitCount < start + len ∨ s.qubitCount ≤ carryIndex then
    (s, some EngineError.OutOfRange)
  else if start ≤ carryIndex ∧ carryIndex < start + len then
    (s, some EngineError.Overlap)
  else
    ({ s with stateVec := inccPermute toAdd start len carryIndex s.stateVec },
      none)

/-- A concrete identity gate matrix used by the closed witness theorems. -/
def idMatrix : GateMatrix :=
  { u00 := ComplexSimd.ofReIm 1 0
    u01 := ComplexSimd.ofReIm 0 0
    u10 := ComplexSimd.ofReIm 0 0
    u11 := ComplexSimd.ofReIm 1 0 }

/-- A concrete 2-qubit register used by the closed witness theorems. -/
def sampleReg : QEngineCPU :=
  { qubitCount := 2
    stateVec := [ComplexSimd.ofReIm 1 0, ComplexSimd.ofReIm 0 2,
      ComplexSimd.ofReIm 3 0, ComplexSimd.ofReIm 0 4]
    runningNorm := 1
    doNormalize := true }

end Qrack

namespace Qrack

/-- C1: the binary complex product of z = (a, b) and w = (c, d) is
(a·c − b·d, a·d + b·c), the standard complex-product identity, exactly over
the embedded real arithmetic. -/
theorem mul_is_complex_product (a b c d : ℚ) :
    mul (ComplexSimd.ofReIm a b) (ComplexSimd.ofReIm c d) =
      ComplexSimd.ofReIm (a * c - b * d) (a * d + b * c) := by
  simp only [mul, ComplexSimd.ofReIm, mm_set_pd, mm_mul_pd, mm_move_sd,
    mm_bslli8, mm_bsrli8, ComplexSimd.mk.injEq, Prod.mk.injEq]
  exact ⟨by ring, by ring⟩

/-- C10: binary complex multiplication is commutative: z * w = w * z with
equal real lanes and equal imaginary lanes. -/
theorem mul_commutative (z w : ComplexSimd) : mul z w = mul w z := by
  simp only [mul, ComplexSimd.ofReIm, mm_set_pd, mm_mul_pd, mm_move_sd,
    mm_bslli8, mm_bsrli8, ComplexSimd.mk.injEq, Prod.mk.injEq]
  exact ⟨by ring, by ring⟩

/-- C3: normSqrd of z = (a, b) returns a² + b², and the state-passing form
leaves z unchanged. -/
theorem normSqrd_is_sum_of_squares (a b : ℚ) :
    normSqrd (ComplexSimd.ofReIm a b) = a * a + b * b ∧
      (normSqrdFull (ComplexSimd.ofReIm a b)).2 = ComplexSimd.ofReIm a b := by
  constructor
  · rfl
  · rfl

/-- C2: the compound multiply diverges from the binary multiply.  At
z = 1 + 2i and w = 3 + 4i the binary product is −5 + 10i, but `operator*=`
writes the new `_val` with `_mm_set_pd(realPart, imagPart)` whose argument
order is (high lane, low lane) = (imag, real), so both the updated z and the
returned value come out lane-swapped as 10 − 5i. -/
theorem mulAssign_swaps_lanes_at_1_2_3_4 :
    mul (ComplexSimd.ofReIm 1 2) (ComplexSimd.ofReIm 3 4) =
        ComplexSimd.ofReIm (-5) 10 ∧
      (mulAssign (ComplexSimd.ofReIm 1 2) (ComplexSimd.ofReIm 3 4)).1 =
        ComplexSimd.ofReIm 10 (-5) ∧
      (mulAssign (ComplexSimd.ofReIm 1 2) (ComplexSimd.ofReIm 3 4)).2 =
        ComplexSimd.ofReIm 10 (-5) ∧
      (mulAssign (ComplexSimd.ofReIm 1 2) (ComplexSimd.ofReIm 3 4)).1 ≠
        mul (ComplexSimd.ofReIm 1 2) (ComplexSimd.ofReIm 3 4) := by
  norm_num [mul, mulAssign, ComplexSimd.ofReIm, mm_set_pd, mm_mul_pd,
    mm_move_sd, mm_bslli8, mm_bsrli8, ComplexSimd.mk.injEq, Prod.mk.injEq]

/-- C4: addition and subtraction are componentwise on (real, imag), and the
compound forms leave this equal to the binary result and return that same
value. -/
theorem add_sub_componentwise (a b c d : ℚ) :
    add (ComplexSimd.ofReIm a b) (ComplexSimd.ofReIm c d) =
        ComplexSimd.ofReIm (a + c) (b + d) ∧
      sub (ComplexSimd.ofReIm a b) (ComplexSimd.ofReIm c d) =
        ComplexSimd.ofReIm (a - c) (b - d) ∧
      (∀ z w : ComplexSimd,
        (addAssign z w).1 = add z w ∧ (addAssign z w).2 = add z w) ∧
      (∀ z w : ComplexSimd,
        (subAssign z w).1 = sub z w ∧ (subAssign z w).2 = sub z w) := by
  exact ⟨rfl, rfl, fun z w => ⟨rfl, rfl⟩, fun z w => ⟨rfl, rfl⟩⟩

/-- C5: scalar multiply acts componentwise on either side and the two sides
agree; for a nonzero scalar, scalar division is componentwise and the
compound form leaves this equal to the quotient and returns it. -/
theorem scalar_mul_div_componentwise (a b s : ℚ) :
    mulScalar (ComplexSimd.ofReIm a b) s = ComplexSimd.ofReIm (a * s) (b * s) ∧
      scalarMul s (ComplexSimd.ofReIm a b) = ComplexSimd.ofReIm (a * s) (b * s) ∧
      mulScalar (ComplexSimd.ofReIm a b) s = scalarMul s (ComplexSimd.ofReIm a b) ∧
      (s ≠ 0 →
        divScalar (ComplexSimd.ofReIm a b) s = ComplexSimd.ofReIm (a / s) (b / s) ∧
        (divAssign (ComplexSimd.ofReIm a b) s).1 =
          divScalar (ComplexSimd.ofReIm a b) s ∧
        (divAssign (ComplexSimd.ofReIm a b) s).2 =
          divScalar (ComplexSimd.ofReIm a b) s) := by
  refine ⟨?_, ?_, ?_, fun _ => ⟨rfl, rfl, rfl⟩⟩ <;>
    simp only [mulScalar, scalarMul, ComplexSimd.ofReIm, mm_set_pd, mm_set1_pd,
      mm_mul_pd, ComplexSimd.mk.injEq, Prod.mk.injEq] <;>
    exact ⟨by ring, by ring⟩

/-- Witness for C5 at a = 1, b = 2, s = 2, discharging the s ≠ 0
hypothesis. -/
theorem scalar_mul_div_componentwise_witness :
    divScalar (ComplexSimd.ofReIm 1 2) 2 =
        ComplexSimd.ofReIm (1 / 2) (2 / 2) ∧
      (divAssign (ComplexSimd.ofReIm 1 2) 2).1 =
        divScalar (ComplexSimd.ofReIm 1 2) 2 :=
  ⟨((scalar_mul_div_componentwise 1 2 2).2.2.2 (by decide)).1,
    ((scalar_mul_div_componentwise 1 2 2).2.2.2 (by decide)).2.1⟩

/-- C6: the const operations have value semantics: the state-passing
translation of each body, which contains no assignment, returns every
operand with its prior value. -/
theorem const_ops_leave_operands_unchanged (z w : ComplexSimd) (s : ℚ) :
    (addFull z w).2.1 = z ∧ (addFull z w).2.2 = w ∧
      (subFull z w).2.1 = z ∧ (subFull z w).2.2 = w ∧
      (mulFull z w).2.1 = z ∧ (mulFull z w).2.2 = w ∧
      (mulScalarFull z s).2 = z ∧
      (scalarMulFull s z).2 = z ∧
      (divScalarFull z s).2 = z ∧
      (realFull z).2 = z ∧ (imagFull z).2 = z ∧ (normSqrdFull z).2 = z :=
  ⟨rfl, rfl, rfl, rfl, rfl, rfl, rfl, rfl, rfl, rfl, rfl, rfl⟩

/-- Reading a range-map list at an in-range position gives the mapped
value. -/
theorem getD_range_map {α : Type} (f : Nat → α) (n j : Nat) (d : α)
    (h : j < n) : ((List.range n).map f).getD j d = f j := by
  simp [List.getD_eq_getElem?_getD, List.getElem?_map, List.getElem?_range, h]

/-- A bit field value is below 2^len. -/
theorem getField_lt (start len i : Nat) : getField start len i < 2 ^ len :=
  Nat.mod_lt _ (Nat.two_pow_pos len)

/-- Rewriting setField with the high part folded into one product. -/
theorem setField_eq (start len i f : Nat) :
    setField start len i f =
      i % 2 ^ start + (f + i / 2 ^ (start + len) * 2 ^ len) * 2 ^ start := by
  unfold setField
  rw [pow_add]
  ring

/-- Reading the field back after writing it. -/
theorem getField_setField (start len i f : Nat) (hf : f < 2 ^ len) :
    getField start len (setField start len i f) = f := by
  rw [setField_eq]
  unfold getField
  rw [Nat.add_mul_div_right _ _ (Nat.two_pow_pos start),
    Nat.div_eq_of_lt (Nat.mod_lt _ (Nat.two_pow_pos start)), Nat.zero_add,
    Nat.add_mul_mod_self_right, Nat.mod_eq_of_lt hf]

/-- Writing the field keeps the bits below start. -/
theorem setField_mod (start len i f : Nat) :
    setField start len i f % 2 ^ start = i % 2 ^ start := by
  rw [setField_eq, Nat.add_mul_mod_self_right,
    Nat.mod_mod_of_dvd i (dvd_refl _)]

/-- The low part of setField is below 2^(start+len). -/
theorem setField_low_lt (start len i f : Nat) (hf : f < 2 ^ len) :
    i % 2 ^ start + f * 2 ^ start < 2 ^ (start + len) := by
  calc i % 2 ^ start + f * 2 ^ start
      < 2 ^ start + f * 2 ^ start :=
        Nat.add_lt_add_right (Nat.mod_lt _ (Nat.two_pow_pos start)) _
    _ = (f + 1) * 2 ^ start := by ring
    _ ≤ 2 ^ len * 2 ^ start := Nat.mul_le_mul_right _ hf
    _ = 2 ^ (start + len) := by rw [← pow_add, Nat.add_comm]

/-- Writing the field keeps the bits at and above start + len. -/
theorem setField_div (start len i f : Nat) (hf : f < 2 ^ len) :
    setField start len i f / 2 ^ (start + len) = i / 2 ^ (start + len) := by
  unfold setField
  rw [Nat.add_mul_div_right _ _ (Nat.two_pow_pos (start + len)),
    Nat.div_eq_of_lt (setField_low_lt start len i f hf), Nat.zero_add]

/-- Two field writes collapse to the second one. -/
theorem setField_setField (start len i f g : Nat) (hf : f < 2 ^ len) :
    setField start len (setField start len i f) g = setField start len i g := by
  conv_lhs => rw [setField]
  rw [setField_mod, setField_div start len i f hf, ← setField]

/-- Writing back the field a basis index already holds is the identity. -/
theorem setField_getField (start len i : Nat) :
    setField start len i (getField start len i) = i := by
  unfold setField getField
  rw [pow_add, ← Nat.div_div_eq_div_mul]
  conv_rhs =>
    rw [← Nat.mod_add_div i (2 ^ start), ← Nat.mod_add_div (i / 2 ^ start) (2 ^ len)]
  ring

/-- A field write stays inside the register dimension. -/
theorem setField_lt (start len Q i f : Nat) (hi : i < 2 ^ Q)
    (hf : f < 2 ^ len) (hQ : start + len ≤ Q) :
    setField start len i f < 2 ^ Q := by
  unfold setField
  calc i % 2 ^ start + f * 2 ^ start + i / 2 ^ (start + len) * 2 ^ (start + len)
      < 2 ^ (start + len) + i / 2 ^ (start + len) * 2 ^ (start + len) :=
        Nat.add_lt_add_right (setField_low_lt start len i f hf) _
    _ = (i / 2 ^ (start + len) + 1) * 2 ^ (start + len) := by ring
    _ ≤ 2 ^ (Q - (start + len)) * 2 ^ (start + len) := by
        refine Nat.mul_le_mul_right _ (Nat.succ_le_of_lt ?_)
        rw [Nat.div_lt_iff_lt_mul (Nat.two_pow_pos (start + len))]
        calc i < 2 ^ Q := hi
          _ = 2 ^ (Q - (start + len)) * 2 ^ (start + len) := by
              rw [← pow_add]; congr 1; omega
    _ = 2 ^ Q := by rw [← pow_add]; congr 1; omega

/-- Two field shifts compose into the shift by the sum. -/
theorem shiftField_comp (start len s1 s2 i : Nat) :
    shiftField start len s1 (shiftField start len s2 i) =
      shiftField start len (s2 + s1) i := by
  unfold shiftField
  rw [getField_setField start len i _ (Nat.mod_lt _ (Nat.two_pow_pos len)),
    setField_setField start len i _ _ (Nat.mod_lt _ (Nat.two_pow_pos len)),
    Nat.mod_add_mod, Nat.add_assoc]

/-- A field shift by a multiple of 2^len is the identity on basis
indices. -/
theorem shiftField_eq_self (start len k i : Nat) (hk : k % 2 ^ len = 0) :
    shiftField start len k i = i := by
  unfold shiftField
  rw [Nat.add_mod, hk, Nat.add_zero,
    Nat.mod_mod_of_dvd _ (dvd_refl _),
    Nat.mod_eq_of_lt (getField_lt start len i), setField_getField]

/-- A field shift stays inside the register dimension. -/
theorem shiftField_lt (start len k Q i : Nat) (hi : i < 2 ^ Q)
    (hQ : start + len ≤ Q) : shiftField start len k i < 2 ^ Q :=
  setField_lt start len Q i _ hi (Nat.mod_lt _ (Nat.two_pow_pos len)) hQ

/-- The inverse shifts of INC toAdd and INC (2^len - toAdd) sum to a
multiple of 2^len. -/
theorem inv_shifts_cancel (len toAdd : Nat) (h : toAdd < 2 ^ len) :
    ((2 ^ len - (2 ^ len - toAdd) % 2 ^ len) % 2 ^ len +
        (2 ^ len - toAdd % 2 ^ len) % 2 ^ len) % 2 ^ len = 0 := by
  rcases Nat.eq_zero_or_pos toAdd with h0 | h0
  · subst h0
    simp [Nat.mod_self]
  · have h1 : toAdd % 2 ^ len = toAdd := Nat.mod_eq_of_lt h
    have h2 : 2 ^ len - toAdd < 2 ^ len := by
      have := Nat.two_pow_pos len
      omega
    have h3 : 2 ^ len - (2 ^ len - toAdd) = toAdd := by omega
    rw [h1, Nat.mod_eq_of_lt h2, h3, Nat.mod_eq_of_lt h]
    have h4 : toAdd + (2 ^ len - toAdd) = 2 ^ len := by omega
    rw [h4, Nat.mod_self]

/-- C7: GetNorm with update = true first recomputes the running norm as the
sum of squared magnitudes over the full amplitude buffer and returns that
refreshed value, GetNorm with update = false returns the cached runningNorm
on the unchanged register, and neither call mutates the amplitude
vector. -/
theorem getNorm_update_semantics (s : QEngineCPU) :
    (GetNorm true s).1 = (s.stateVec.map normSqrd).sum ∧
      (GetNorm true s).2 = UpdateRunningNorm s ∧
      (GetNorm true s).2.stateVec = s.stateVec ∧
      (GetNorm false s).1 = s.runningNorm ∧
      (GetNorm false s).2 = s :=
  ⟨rfl, rfl, rfl, rfl, rfl⟩

/-- C8: a gate, arithmetic, or import call whose arguments fail
validation — an index at or beyond qubitCount (OutOfRange), two
role-distinct positions naming the same qubit (Overlap), or an imported
vector whose length is not 2^qubitCount (SizeMismatch) — returns the
register exactly as it was, together with the error.  The arithmetic
entry points INCChecked and INCC exhibit the arithmetic validation
shapes: a field reaching past the last qubit, an out-of-range flag
qubit, and a flag qubit inside the target field. -/
theorem invalid_call_leaves_register_unchanged (s : QEngineCPU)
    (m : GateMatrix) (doCalcNorm : Bool) (q c t c1 c2 t3 : Nat)
    (v : List ComplexSimd) (a1 st1 ln1 a2 st2 ln2 cy : Nat) :
    (s.qubitCount ≤ q →
      ApplySingleBit m doCalcNorm q s = (s, some EngineError.OutOfRange)) ∧
      (s.qubitCount ≤ c ∨ s.qubitCount ≤ t →
        CNOT c t s = (s, some EngineError.OutOfRange)) ∧
      (c < s.qubitCount → c = t →
        CNOT c t s = (s, some EngineError.Overlap)) ∧
      (s.qubitCount ≤ c1 ∨ s.qubitCount ≤ c2 ∨ s.qubitCount ≤ t3 →
        CCNOT c1 c2 t3 s = (s, some EngineError.OutOfRange)) ∧
      (c1 < s.qubitCount → c2 < s.qubitCount → t3 < s.qubitCount →
        c1 = c2 ∨ c1 = t3 ∨ c2 = t3 →
        CCNOT c1 c2 t3 s = (s, some EngineError.Overlap)) ∧
      (v.length ≠ 2 ^ s.qubitCount →
        SetQuantumState v s = (s, some EngineError.SizeMismatch)) ∧
      (s.qubitCount < st1 + ln1 →
        INCChecked a1 st1 ln1 s = (s, some EngineError.OutOfRange)) ∧
      (s.qubitCount < st2 + ln2 ∨ s.qubitCount ≤ cy →
        INCC a2 st2 ln2 cy s = (s, some EngineError.OutOfRange)) ∧
      (st2 + ln2 ≤ s.qubitCount → cy < s.qubitCount →
        st2 ≤ cy ∧ cy < st2 + ln2 →
        INCC a2 st2 ln2 cy s = (s, some EngineError.Overlap)) := by
  refine ⟨?_, ?_, ?_, ?_, ?_, ?_, ?_, ?_, ?_⟩
  · intro h
    unfold ApplySingleBit
    rw [if_pos h]
  · intro h
    unfold CNOT
    rw [if_pos h]
  · intro hc heq
    unfold CNOT
    rw [if_neg (by omega), if_pos heq]
  · intro h
    unfold CCNOT
    rw [if_pos h]
  · intro h1 h2 h3 heq
    unfold CCNOT
    rw [if_neg (by omega), if_pos heq]
  · intro h
    unfold SetQuantumState
    rw [if_pos h]
  · intro h
    unfold INCChecked
    rw [if_pos h]
  · intro h
    unfold INCC
    rw [if_pos h]
  · intro h1 h2 heq
    unfold INCC
    rw [if_neg (by omega), if_pos heq]

/-- Witness for C8 on the concrete 2-qubit register: an out-of-range
single-bit gate, an out-of-range CNOT, an overlapping CNOT, an
out-of-range CCNOT, an overlapping CCNOT, a wrong-length import, an INC
whose field overruns the register, an INCC with an out-of-range carry
qubit, and an INCC whose carry qubit lies inside the target field are all
rejected with the register unchanged. -/
theorem invalid_call_leaves_register_unchanged_witness :
    ApplySingleBit idMatrix true 5 sampleReg =
        (sampleReg, some EngineError.OutOfRange) ∧
      CNOT 2 0 sampleReg = (sampleReg, some EngineError.OutOfRange) ∧
      CNOT 1 1 sampleReg = (sampleReg, some EngineError.Overlap) ∧
      CCNOT 0 1 2 sampleReg = (sampleReg, some EngineError.OutOfRange) ∧
      CCNOT 0 1 1 sampleReg = (sampleReg, some EngineError.Overlap) ∧
      SetQuantumState [zeroAmp] sampleReg =
        (sampleReg, some EngineError.SizeMismatch) ∧
      INCChecked 1 1 2 sampleReg = (sampleReg, some EngineError.OutOfRange) ∧
      INCC 1 0 2 5 sampleReg = (sampleReg, some EngineError.OutOfRange) ∧
      INCC 1 0 2 1 sampleReg = (sampleReg, some EngineError.Overlap) :=
  ⟨(invalid_call_leaves_register_unchanged sampleReg idMatrix true 5 2 0 0 1 1
      [zeroAmp] 1 1 2 1 0 2 5).1 (by decide),
    (invalid_call_leaves_register_unchanged sampleReg idMatrix true 5 2 0 0 1 1
      [zeroAmp] 1 1 2 1 0 2 5).2.1 (Or.inl (by decide)),
    (invalid_call_leaves_register_unchanged sampleReg idMatrix true 5 1 1 0 1 1
      [zeroAmp] 1 1 2 1 0 2 5).2.2.1 (by decide) rfl,
    (invalid_call_leaves_register_unchanged sampleReg idMatrix true 5 2 0 0 1 2
      [zeroAmp] 1 1 2 1 0 2 5).2.2.2.1 (Or.inr (Or.inr (by decide))),
    (invalid_call_leaves_register_unchanged sampleReg idMatrix true 5 2 0 0 1 1
      [zeroAmp] 1 1 2 1 0 2 5).2.2.2.2.1 (by decide) (by decide) (by decide)
      (Or.inr (Or.inr rfl)),
    (invalid_call_leaves_register_unchanged sampleReg idMatrix true 5 2 0 0 1 1
      [zeroAmp] 1 1 2 1 0 2 5).2.2.2.2.2.1 (by decide),
    (invalid_call_leaves_register_unchanged sampleReg idMatrix true 5 2 0 0 1 1
      [zeroAmp] 1 1 2 1 0 2 5).2.2.2.2.2.2.1 (by decide),
    (invalid_call_leaves_register_unchanged sampleReg idMatrix true 5 2 0 0 1 1
      [zeroAmp] 1 1 2 1 0 2 5).2.2.2.2.2.2.2.1 (Or.inr (by decide)),
    (invalid_call_leaves_register_unchanged sampleReg idMatrix true 5 2 0 0 1 1
      [zeroAmp] 1 1 2 1 0 2 1).2.2.2.2.2.2.2.2 (by decide) (by decide)
      ⟨by decide, by decide⟩⟩

/-- C9: INC toAdd followed by INC (2^len - toAdd) on the same field is the
identity on the amplitude vector, for every register whose buffer has
dimension 2^qubitCount, every field with start + len at most qubitCount,
and every toAdd below 2^len. -/
theorem inc_inc_roundtrip (s : QEngineCPU) (toAdd start len : Nat)
    (hbuf : s.stateVec.length = 2 ^ s.qubitCount)
    (hfit : start + len ≤ s.qubitCount) (hlt : toAdd < 2 ^ len) :
    (INC (2 ^ len - toAdd) start len (INC toAdd start len s)).stateVec =
      s.stateVec := by
  unfold INC
  apply List.ext_getElem
  · simp
  · intro i h1 h2
    have hlen1 : ((List.range s.stateVec.length).map fun j =>
        s.stateVec.getD
          (shiftField start len ((2 ^ len - toAdd % 2 ^ len) % 2 ^ len) j)
          zeroAmp).length = s.stateVec.length := by simp
    have hi : i < 2 ^ s.qubitCount := by
      rw [← hbuf]
      exact h2
    have hs2 : shiftField start len
        ((2 ^ len - (2 ^ len - toAdd) % 2 ^ len) % 2 ^ len) i <
          2 ^ s.qubitCount :=
      shiftField_lt start len _ s.qubitCount i hi hfit
    simp only [List.getElem_map, List.getElem_range, hlen1]
    rw [getD_range_map _ _ _ _ (by rw [hbuf]; exact hs2)]
    rw [shiftField_comp]
    rw [shiftField_eq_self start len _ i (inv_shifts_cancel len toAdd hlt)]
    exact List.getD_eq_getElem s.stateVec zeroAmp h2

/-- Witness for C9: on the concrete 2-qubit register, INC 1 on the
2-bit field at 0 followed by INC 3 restores the amplitude vector. -/
theorem inc_inc_roundtrip_witness :
    sampleReg.stateVec.length = 2 ^ sampleReg.qubitCount ∧
      0 + 2 ≤ sampleReg.qubitCount ∧ 1 < 2 ^ 2 ∧
      (INC (2 ^ 2 - 1) 0 2 (INC 1 0 2 sampleReg)).stateVec =
        sampleReg.stateVec :=
  ⟨rfl, by decide, by decide,
    inc_inc_roundtrip sampleReg 1 0 2 rfl (by decide) (by decide)⟩

end Qrack
